import Mathlib

/-!
Verification of the playlist-index and icon-fetch core of
`main_mpv.py` (IPTV Player, MPV edition).  The Python functions are
shallowly embedded as Lean functions: strings become `String`/`List Char`,
Python dicts (which preserve insertion order) become association lists,
and the Qt-thread icon machinery becomes an explicit state machine whose
events are the calls that can occur at runtime.
-/

namespace IPTV

/-! ### Python string primitives -/

/-- Whitespace characters stripped by Python `str.strip()` (ASCII range). -/
def isPySpace (c : Char) : Bool :=
  c = ' ' || c = '\t' || c = '\n' || c = '\x0b' || c = '\x0c' || c = '\r'

/-- `str.strip()` on a character list. -/
def pyStripL (l : List Char) : List Char :=
  ((l.dropWhile isPySpace).reverse.dropWhile isPySpace).reverse

/-- `str.strip()`. -/
def pyStrip (s : String) : String := String.mk (pyStripL s.toList)

/-- `s.startswith(p)`. -/
def strStartsWith (s p : String) : Bool := p.toList.isPrefixOf s.toList

/-- Contiguous-subsequence test on character lists; `seqIn sub l` is
Python's `sub in l` for strings. -/
def seqIn : List Char → List Char → Bool
  | sub, [] => sub.isEmpty
  | sub, c :: t => sub.isPrefixOf (c :: t) || seqIn sub t

/-- Python `sub in s` substring containment. -/
def pyIn (sub s : String) : Bool := seqIn sub.toList s.toList

/-- `s.split(',', 1)`: `none` when there is no comma, otherwise the parts
strictly before and strictly after the first comma. -/
def splitFirstComma : List Char → Option (List Char × List Char)
  | [] => none
  | c :: t =>
    if c = ',' then some ([], t)
    else
      match splitFirstComma t with
      | none => none
      | some (a, b) => some (c :: a, b)

/-- First index at or after which `sub` occurs in the remaining list
(auxiliary for `subFind`); the `Nat` argument is the index of the head. -/
def subFindAux (sub : List Char) : List Char → Nat → Option Nat
  | [], i => if sub.isEmpty then some i else none
  | c :: t, i => if sub.isPrefixOf (c :: t) then some i else subFindAux sub t (i + 1)

/-- `hay.find(sub)` returning `none` instead of `-1`. -/
def subFind (hay sub : List Char) : Option Nat := subFindAux sub hay 0

/-- Python `hay.find(sub, start)`, with `-1` for "not found". -/
def pyFindFrom (hay sub : List Char) (start : Nat) : Int :=
  match subFind (hay.drop start) sub with
  | some j => ((start + j : Nat) : Int)
  | none => -1

/-- Python slice `l[start:stop]` with a possibly negative `stop`
(negative values count from the end, clamped at `0`). -/
def pySlice (l : List Char) (start : Nat) (stop : Int) : List Char :=
  let stopN : Nat := if stop < 0 then ((l.length : Int) + stop).toNat else stop.toNat
  (l.take stopN).drop start

/-- ASCII/Cyrillic lowering of one character, as Python `str.lower` acts on
the alphabets appearing in this application. -/
def pyLowerChar (c : Char) : Char :=
  if 'A' ≤ c ∧ c ≤ 'Z' then Char.ofNat (c.toNat + 32)
  else if 0x410 ≤ c.toNat ∧ c.toNat ≤ 0x42F then Char.ofNat (c.toNat + 32)
  else if c.toNat = 0x401 then Char.ofNat 0x451
  else c

/-- `s.lower()`. -/
def pyLower (s : String) : String := String.mk (s.toList.map pyLowerChar)

/-- Code-point lexicographic `a <= b` on character lists, as Python compares
strings. -/
def lexLe : List Char → List Char → Bool
  | [], _ => true
  | _ :: _, [] => false
  | a :: as, b :: bs =>
    if a.toNat < b.toNat then true
    else if a.toNat = b.toNat then lexLe as bs
    else false

/-- Python `a <= b` on strings. -/
def pyLe (a b : String) : Bool := lexLe a.toList b.toList

/-! ### Association lists: Python dicts preserve insertion order, so a dict
is embedded as a key-unique association list where assignment to a fresh key
appends at the end. -/

/-- Dict lookup. -/
def assocGet {κ α : Type} [DecidableEq κ] : List (κ × α) → κ → Option α
  | [], _ => none
  | (k', v) :: t, k => if k' = k then some v else assocGet t k

/-- Dict assignment `d[k] = v` (overwrite in place, or append a fresh key). -/
def assocSet {κ α : Type} [DecidableEq κ] : List (κ × α) → κ → α → List (κ × α)
  | [], k, v => [(k, v)]
  | (k', v') :: t, k, v => if k' = k then (k, v) :: t else (k', v') :: assocSet t k v

/-- Dict deletion `del d[k]` (key occurs at most once). -/
def assocErase {κ α : Type} [DecidableEq κ] : List (κ × α) → κ → List (κ × α)
  | [], _ => []
  | (k', v') :: t, k => if k' = k then t else (k', v') :: assocErase t k

/-- `d.setdefault(k, []).append(c)`: append `c` to the list stored at `k`,
creating the key at the end of the dict if absent.  This is exactly the
`if group not in categories: categories[group] = []` + `append` idiom of
`load_playlist`. -/
def catAppend {α : Type} : List (String × List α) → String → α → List (String × List α)
  | [], k, c => [(k, [c])]
  | (k', l) :: t, k, c => if k' = k then (k', l ++ [c]) :: t else (k', l) :: catAppend t k c

/-! ### Data model and constants (`main_mpv.py` top of file) -/

/-- `CATEGORY_ALL = "Все каналы"`. -/
def CATEGORY_ALL : String := "Все каналы"

/-- `CATEGORY_NONE = "Без категории"`. -/
def CATEGORY_NONE : String := "Без категории"

/-- `MAX_CONCURRENT_DOWNLOADS = 5` (line 68). -/
def MAX_CONCURRENT_DOWNLOADS : Nat := 5

/-- The `Channel` dataclass (lines 150-156). -/
structure Channel where
  name : String
  url : String
  group : String
  logo : Option String
deriving DecidableEq, Repr

/-! ### validate_m3u and parse_m3u_line (lines 179-203) -/

/-- `validate_m3u(content)`: truthy iff the content is non-empty and
contains `#EXTM3U` or `#EXTINF` anywhere as a substring (lines 179-181). -/
def validate_m3u (content : String) : Bool :=
  (!content.isEmpty) && (pyIn "#EXTM3U" content || pyIn "#EXTINF" content)

/-- The `group-title="` attribute marker (13 characters, matching the
hard-coded `+ 13` offset in the source). -/
def GROUP_ATTR : List Char := "group-title=\"".toList

/-- The `tvg-logo="` attribute marker (10 characters, `+ 10` in source). -/
def LOGO_ATTR : List Char := "tvg-logo=\"".toList

/-- Attribute extraction of `parse_m3u_line`: if the marker occurs in the
part before the first comma, take the slice from just after the marker up to
the next `"` (Python `find` returns `-1` when the quote is missing, making
the slice end one character before the end of the part). -/
def extractAttr (info : List Char) (attr : List Char) : Option (List Char) :=
  match subFind info attr with
  | none => none
  | some i => some (pySlice info (i + attr.length) (pyFindFrom info ['"'] (i + attr.length)))

/-- `parse_m3u_line(line)` on character lists (lines 183-203): split at the
FIRST comma via `line.split(',', 1)`; the name is the stripped remainder,
and the two attributes are extracted from the part before that comma. -/
def parse_m3u_lineL (line : List Char) :
    Option (List Char) × Option (List Char) × Option (List Char) :=
  match splitFirstComma line with
  | none => (none, none, none)
  | some (info, rest) =>
    (some (pyStripL rest), extractAttr info GROUP_ATTR, extractAttr info LOGO_ATTR)

/-- `parse_m3u_line(line)` on strings. -/
def parse_m3u_line (line : String) : Option String × Option String × Option String :=
  match parse_m3u_lineL line.toList with
  | (n, g, lg) => (n.map String.mk, g.map String.mk, lg.map String.mk)

/-! ### load_playlist (lines 816-862) -/

/-- Python truthiness of the `current_name` / `current_group` variables:
`None` and the empty string are falsy. -/
def optTruthy : Option String → Bool
  | none => false
  | some s => !s.isEmpty

/-- Python `opt or default` for an optional string. -/
def pyOrS (o : Option String) (d : String) : String :=
  match o with
  | none => d
  | some s => if s.isEmpty then d else s

/-- Parsed playlist state: `self.channels` and `self.categories`. -/
structure LoadState where
  channels : List Channel
  categories : List (String × List Channel)
deriving DecidableEq, Repr

/-- The line loop of `load_playlist` (lines 830-856).  State: the pending
`(current_name, current_group, current_logo)` triple plus the accumulated
channels/categories. -/
def load_loop : Option String × Option String × Option String → LoadState →
    List String → LoadState
  | _, st, [] => st
  | (cn, cg, cl), st, raw :: rest =>
    let line := pyStrip raw
    if line = "" then load_loop (cn, cg, cl) st rest
    else if strStartsWith line "#EXTINF" then load_loop (parse_m3u_line line) st rest
    else if (!strStartsWith line "#") && optTruthy cn then
      let ch : Channel := ⟨cn.getD "", line, pyOrS cg CATEGORY_NONE, cl⟩
      let cats := catAppend st.categories CATEGORY_ALL ch
      let cats := if optTruthy cg then catAppend cats (cg.getD "") ch else cats
      load_loop (none, none, none) ⟨st.channels ++ [ch], cats⟩ rest
    else load_loop (cn, cg, cl) st rest

/-- `load_playlist` applied to the (already line-split) file content:
starts from empty channels and `{CATEGORY_ALL: []}`. -/
def load_playlist (lines : List String) : LoadState :=
  load_loop (none, none, none) ⟨[], [(CATEGORY_ALL, [])]⟩ lines

/-- `load_playlist(filepath)` including the missing-file guard (lines
819-821): a missing file returns early and keeps the previous state; an
existing file is re-parsed from scratch regardless of its content. -/
def load_playlist_full (prev : LoadState) (fileExists : Bool) (lines : List String) :
    LoadState :=
  if fileExists then load_playlist lines else prev

/-! ### Raw parse entries: an observer of the same line loop that keeps the
raw `(name, group, logo, url)` tuples before channel construction, used to
state grouping properties in terms of the source attributes. -/

/-- One completed `(info line, url line)` pair as scanned by the loop. -/
structure MEntry where
  name : String
  rawGroup : Option String
  logo : Option String
  url : String
deriving DecidableEq, Repr

/-- The completed entry tuples of the `load_playlist` loop, in order. -/
def entries_loop : Option String × Option String × Option String →
    List String → List MEntry
  | _, [] => []
  | (cn, cg, cl), raw :: rest =>
    let line := pyStrip raw
    if line = "" then entries_loop (cn, cg, cl) rest
    else if strStartsWith line "#EXTINF" then entries_loop (parse_m3u_line line) rest
    else if (!strStartsWith line "#") && optTruthy cn then
      ⟨cn.getD "", cg, cl, line⟩ :: entries_loop (none, none, none) rest
    else entries_loop (cn, cg, cl) rest

/-- Entry tuples of a whole playlist. -/
def parse_entries (lines : List String) : List MEntry :=
  entries_loop (none, none, none) lines

/-- The channel built from an entry (`Channel(...)` call, lines 841-846). -/
def mkChannel (e : MEntry) : Channel :=
  ⟨e.name, e.url, pyOrS e.rawGroup CATEGORY_NONE, e.logo⟩

/-- The category key an entry is filed under, when its raw group is truthy
(`if current_group:` at line 851); `none` means it reaches no named group. -/
def groupKey (e : MEntry) : Option String :=
  if optTruthy e.rawGroup then some (e.rawGroup.getD "") else none

/-- One entry's effect on the category dict: append to `CATEGORY_ALL`
(line 849) and, for a truthy raw group, to that group (lines 851-854). -/
def buildStep (m : List (String × List Channel)) (e : MEntry) :
    List (String × List Channel) :=
  match groupKey e with
  | some g => catAppend (catAppend m CATEGORY_ALL (mkChannel e)) g (mkChannel e)
  | none => catAppend m CATEGORY_ALL (mkChannel e)

/-- Category construction replayed over entry tuples. -/
def buildCats : List (String × List Channel) → List MEntry → List (String × List Channel)
  | m, [] => m
  | m, e :: rest => buildCats (buildStep m e) rest

/-- The channels one entry contributes to the sequence of category `g`:
one copy for the all-channels key, plus one copy when its raw group is `g`. -/
def addedTo (g : String) (e : MEntry) : List Channel :=
  (if g = CATEGORY_ALL then [mkChannel e] else [])
    ++ (if groupKey e = some g then [mkChannel e] else [])

/-- The channels a run of entries contributes to category `g`, in order. -/
def addedAll (g : String) : List MEntry → List Channel
  | [] => []
  | e :: rest => addedTo g e ++ addedAll g rest

/-! ### update_categories (lines 876-882) and filter_channels (lines 884-911) -/

/-- Python's `sorted` on strings: a stable sort by code-point order.  For
any input, a stable sort under a total preorder is unique, so insertion
sort reproduces `sorted`'s output. -/
def le' (a b : String) : Prop := pyLe a b = true

instance : DecidableRel le' := fun _ _ => inferInstanceAs (Decidable (_ = true))

/-- `update_categories`: the combo box receives `sorted(self.categories.keys())`
(line 879); nothing reorders the result, the sentinel is only *selected*
afterwards (line 882). -/
def update_categories (cats : List (String × List Channel)) : List String :=
  List.insertionSort le' (cats.map Prod.fst)

/-- `filter_channels` (lines 884-911), reduced to its data content: the
channels that end up in the visible list for a given category and search
box text.  An empty or unknown category yields the empty list (line 891);
the search text is lowered and, when non-empty, kept channels are those
whose lowered name contains it (lines 897-899). -/
def filter_channels (cats : List (String × List Channel))
    (category : String) (searchText : String) : List Channel :=
  if category = "" then []
  else
    match assocGet cats category with
    | none => []
    | some chs =>
      let s := pyLower searchText
      if s = "" then chs else chs.filter (fun ch => pyIn s (pyLower ch.name))

/-! ### Icon fetch machinery -/

/-- What a list row currently displays, and what the cache stores: either
the fallback "TV" pixmap or the decoded, scaled image of some URL. -/
inductive Icon where
  | fallback
  | loaded (url : String)
deriving DecidableEq, Repr

/-- Outcome of one `urllib` fetch inside `ImageDownloadThread.run`. -/
inductive FetchResult where
  | ok
  | badImage
  | transportError
deriving DecidableEq, Repr

/-- `ImageDownloadThread.run` (lines 369-400), which is decorated with
`@safe_call(silent=True)`: a transport-level exception (`urlopen`/`read`
raising) is swallowed by the decorator BEFORE the `finished` signal is
emitted, so nothing is delivered (`none`).  A response whose bytes fail to
decode leaves a null pixmap, which IS emitted (`some false`); a decodable
image is scaled and emitted (`some true`).  The returned Bool is
`not pixmap.isNull()` as tested by `_on_icon_loaded`. -/
def imageThread_run : FetchResult → Option Bool
  | .ok => some true
  | .badImage => some false
  | .transportError => none

/-- The icon manager state owned by `MPVPlayer` (`_init_data_structures`,
lines 453-458): cache, in-flight map (url → thread; we record the list
item captured by the thread's `finished` lambda), FIFO queue, what each
list item displays, `_active_threads`, the statistics triple, and the
shutdown flag. -/
structure IconState where
  channel_icons : List (String × Icon)
  pending : List (String × Nat)
  queue : List (String × String × Nat)
  items : List (Nat × Icon)
  active : List (String × Nat)
  statsLoaded : Nat
  statsFailed : Nat
  statsCache : Nat
  isClosing : Bool
deriving DecidableEq, Repr

/-- The initial icon-manager state. -/
def initIcon : IconState := ⟨[], [], [], [], [], 0, 0, 0, false⟩

/-- `get_channel_icon(logo_url, channel_name, list_item)` (lines 960-989):
set the fallback icon at once; a falsy URL stops there; a cached URL is
served synchronously; a URL already in `pending_icon_downloads` is dropped
(the new list item is NOT recorded anywhere); otherwise the request is
appended to `icon_download_queue` (queue processing itself runs later from
a timer).  List items are live `QListWidgetItem`s, identified by `Nat`. -/
def get_channel_icon (st : IconState) (logo_url : Option String)
    (channel_name : String) (item : Nat) : IconState :=
  let st1 := { st with items := assocSet st.items item Icon.fallback }
  match logo_url with
  | none => st1
  | some url =>
    if url = "" then st1
    else
      match assocGet st1.channel_icons url with
      | some ic =>
        { st1 with items := assocSet st1.items item ic, statsCache := st1.statsCache + 1 }
      | none =>
        if (assocGet st1.pending url).isSome then st1
        else { st1 with queue := st1.queue ++ [(url, channel_name, item)] }

/-- The `while` loop of `_process_download_queue` (lines 1000-1029), with
explicit fuel (one unit per popped queue entry): while fewer than
`MAX_CONCURRENT_DOWNLOADS` fetches are in flight and the queue is
non-empty, pop the head; a URL already in flight or already cached is
skipped; otherwise a thread is started for it (recorded in `pending` and
`_active_threads`).  The `if not item_data['item']` liveness test is true
for every live `QListWidgetItem`. -/
def processLoop : Nat → IconState → IconState
  | 0, st => st
  | fuel + 1, st =>
    if st.pending.length < MAX_CONCURRENT_DOWNLOADS then
      match st.queue with
      | [] => st
      | (url, _nm, item) :: rest =>
        if (assocGet st.pending url).isSome || (assocGet st.channel_icons url).isSome then
          processLoop fuel { st with queue := rest }
        else
          processLoop fuel
            { st with
              queue := rest
              pending := st.pending ++ [(url, item)]
              active := st.active ++ [(url, item)] }
    else st

/-- `_process_download_queue` (lines 991-1029): no-op while closing,
otherwise run the dispatch loop (the queue length bounds the number of
iterations, since every iteration pops one entry). -/
def process_download_queue (st : IconState) : IconState :=
  if st.isClosing then st else processLoop st.queue.length st

/-- The statistics flush at the end of `_on_icon_loaded` (lines 1078-1085):
when nothing is in flight or queued and something was counted, the triple
is reset.  It touches no other field. -/
def maybeResetStats (st : IconState) : IconState :=
  if st.pending.isEmpty && st.queue.isEmpty && decide (0 < st.statsLoaded + st.statsFailed)
  then { st with statsLoaded := 0, statsFailed := 0, statsCache := 0 }
  else st

/-- `_on_icon_loaded(url, pixmap, list_item)` (lines 1031-1085) for a live
list item: drop the URL from the in-flight map, cache the outcome (decoded
icon, or the fallback placeholder on a null pixmap), update the item, bump
the statistics, then (in the `finally` block) promote queued work and
possibly flush the statistics. -/
def on_icon_loaded (st : IconState) (url : String) (pixmapOk : Bool) (item : Nat) :
    IconState :=
  if st.isClosing then st
  else
    let st1 := { st with pending := assocErase st.pending url }
    let ic := if pixmapOk then Icon.loaded url else Icon.fallback
    let st2 :=
      { st1 with
        channel_icons := assocSet st1.channel_icons url ic
        items := assocSet st1.items item ic
        statsLoaded := if pixmapOk then st1.statsLoaded + 1 else st1.statsLoaded
        statsFailed := if pixmapOk then st1.statsFailed else st1.statsFailed + 1 }
    maybeResetStats (process_download_queue st2)

/-- Termination of one dispatched `ImageDownloadThread` for `url` whose
`finished` lambda captured `item`: if `run` emits, the signal invokes
`_on_icon_loaded`; a swallowed transport exception delivers nothing. -/
def fetchComplete (st : IconState) (url : String) (item : Nat) (r : FetchResult) :
    IconState :=
  match imageThread_run r with
  | none => st
  | some pixmapOk => on_icon_loaded st url pixmapOk item

/-- Runtime events acting on the icon manager: an icon request from
`filter_channels`, a timer firing the queue processor, and a dispatched
fetch terminating with some result. -/
inductive IconEv where
  | req (logo : Option String) (name : String) (item : Nat)
  | proc
  | complete (url : String) (item : Nat) (r : FetchResult)

/-- Apply one event. -/
def stepEv (st : IconState) : IconEv → IconState
  | .req l n i => get_channel_icon st l n i
  | .proc => process_download_queue st
  | .complete u i r => fetchComplete st u i r

/-- Run a sequence of events. -/
def runEvents (st : IconState) (evs : List IconEv) : IconState :=
  evs.foldl stepEv st

/-- Completing in-flight fetches one at a time, always the least recently
dispatched first, each fetch emitting its signal with decode success given
by `f`; promotion inside `on_icon_loaded` refills the in-flight map. -/
def drain (f : String → Bool) : Nat → IconState → IconState
  | 0, st => st
  | n + 1, st =>
    match st.pending with
    | [] => st
    | (u, i) :: _ => drain f n (fetchComplete st u i (if f u then .ok else .badImage))

/-! ### PlaylistDownloadThread.run (lines 327-352) -/

/-- The observable outcome of `PlaylistDownloadThread.run` once the bytes
have arrived: content failing `validate_m3u` emits
`(False, "Файл не является плейлистом")` and returns BEFORE the file write,
leaving the previous file content in place; valid content is written and
`(True, "")` is emitted. -/
def playlistDownload_run (content : String) (oldFile : Option String) :
    (Bool × String) × Option String :=
  if validate_m3u content then ((true, ""), some content)
  else ((false, "Файл не является плейлистом"), oldFile)

/-! ### load_playlists_data (lines 1316-1332) -/

/-- JSON values, for the parsed content of `playlists.json`. -/
inductive JVal where
  | null
  | bool (b : Bool)
  | num (n : Int)
  | str (s : String)
  | arr (l : List JVal)
  | obj (l : List (String × JVal))

/-- The registry state `load_playlists_data` leaves behind:
`self.playlists_data` and `self.last_playlist`. -/
structure Registry where
  playlists_data : JVal
  last_playlist : Option JVal

/-- `load_playlists_data` (lines 1316-1332).  Input: whether
`playlists.json` exists, and the outcome of `json.load` on it (`.error` for
a truncated or otherwise unparsable file; `json.load` is the Python
standard library).  A missing file, a parse failure, and a parsed value
that is not an object (whose `.get` raises, caught by the same handler)
all produce the empty registry; a parsed object yields
`data.get('playlists', {})` and `data.get('last_playlist', None)`. -/
def load_playlists_data (fileExists : Bool) (parsed : Except String JVal) : Registry :=
  if fileExists then
    match parsed with
    | .error _ => ⟨.obj [], none⟩
    | .ok data =>
      match data with
      | .obj kvs => ⟨(assocGet kvs "playlists").getD (.obj []), assocGet kvs "last_playlist"⟩
      | _ => ⟨.obj [], none⟩
  else ⟨.obj [], none⟩

/-! ### Concrete states used by counterexamples -/

/-- A URL whose fetch will fail at the transport level. -/
def deadURL : String := "http://dead/icon.png"

/-- An icon-manager state with the dead URL in flight (its thread already
dispatched, item 1 captured) and one further request waiting in the queue. -/
def deadState : IconState :=
  ⟨[], [(deadURL, 1)], [("http://u2/icon.png", "n2", 2)],
   [(1, .fallback), (2, .fallback)], [(deadURL, 1)], 0, 0, 0, false⟩

/-- Six icon requests for six distinct uncached URLs followed by queue
processing and the termination of every dispatched fetch: the fetch of
`"u1"` dies in the transport (its exception is swallowed), the other five
complete normally; completing `"u2"` promotes `"u6"` from the queue. -/
def sixUrlTrace : List IconEv :=
  [.req (some "u1") "n" 1, .req (some "u2") "n" 2, .req (some "u3") "n" 3,
   .req (some "u4") "n" 4, .req (some "u5") "n" 5, .req (some "u6") "n" 6,
   .proc,
   .complete "u1" 1 .transportError,
   .complete "u2" 2 .ok, .complete "u3" 3 .ok, .complete "u4" 4 .ok,
   .complete "u5" 5 .ok, .complete "u6" 6 .ok]

/-- The manager state after a batch of icon requests `(url, item)` arriving
on a fresh manager followed by the deferred queue processing. -/
def iconRequestsState (reqs : List (String × Nat)) : IconState :=
  process_download_queue
    (reqs.foldl (fun s p => get_channel_icon s (some p.1) "" p.2) initIcon)

/-- The state after every dispatched fetch of that batch has delivered its
completion signal (`f` telling which URLs decode successfully), with
promotion refilling the pool until nothing is left. -/
def iconDrainedState (f : String → Bool) (reqs : List (String × Nat)) : IconState :=
  drain f
    ((iconRequestsState reqs).pending.length + (iconRequestsState reqs).queue.length)
    (iconRequestsState reqs)

/-! ## Supporting lemmas -/

theorem seqIn_nil_left (l : List Char) : seqIn [] l = true := by
  cases l <;> rfl

theorem seqIn_iff : ∀ (sub l : List Char), seqIn sub l = true ↔ sub <:+: l
  | sub, [] => by
    simp only [seqIn, List.isEmpty_iff, List.infix_nil]
  | sub, c :: t => by
    rw [seqIn, Bool.or_eq_true, List.isPrefixOf_iff_prefix, seqIn_iff sub t,
      List.infix_cons_iff]

theorem splitFirstComma_append (pre post : List Char) (h : ',' ∉ pre) :
    splitFirstComma (pre ++ ',' :: post) = some (pre, post) := by
  induction pre with
  | nil => simp [splitFirstComma]
  | cons c t ih =>
    have hc : ¬(c = ',') := fun hc => h (hc ▸ List.mem_cons_self c t)
    have ht : ',' ∉ t := fun hm => h (List.mem_cons_of_mem c hm)
    simp only [List.cons_append, splitFirstComma, if_neg hc, List.append_eq, ih ht]

theorem lexLe_total : ∀ a b : List Char, lexLe a b = true ∨ lexLe b a = true
  | [], _ => Or.inl rfl
  | _ :: _, [] => Or.inr rfl
  | a :: as, b :: bs => by
    by_cases h1 : a.toNat < b.toNat
    · exact Or.inl (by unfold lexLe; rw [if_pos h1])
    · by_cases h2 : a.toNat = b.toNat
      · rcases lexLe_total as bs with ih | ih
        · exact Or.inl (by unfold lexLe; rw [if_neg h1, if_pos h2]; exact ih)
        · exact Or.inr (by unfold lexLe; rw [if_neg (by omega), if_pos (by omega)]; exact ih)
      · exact Or.inr (by unfold lexLe; rw [if_pos (by omega)])

theorem lexLe_trans : ∀ a b c : List Char,
    lexLe a b = true → lexLe b c = true → lexLe a c = true
  | [], _, _, _, _ => rfl
  | _ :: _, [], _, h, _ => by simp [lexLe] at h
  | _ :: _, _ :: _, [], _, h => by simp [lexLe] at h
  | a :: as, b :: bs, c :: cs, h1, h2 => by
    unfold lexLe at h1 h2 ⊢
    by_cases hac : a.toNat < c.toNat
    · rw [if_pos hac]
    · by_cases heq : a.toNat = c.toNat
      · rw [if_neg hac, if_pos heq]
        split_ifs at h1 h2 <;> first | omega | exact lexLe_trans as bs cs h1 h2
      · exfalso
        split_ifs at h1 h2 <;> omega

instance : IsTrans String le' :=
  ⟨fun a b c h1 h2 => lexLe_trans a.toList b.toList c.toList h1 h2⟩

instance : IsTotal String le' :=
  ⟨fun a b => lexLe_total a.toList b.toList⟩

/-! ## C1: name extraction in `parse_m3u_line` -/

/-- C1, counterexample: on the line `#EXTINF:-1 group-title="A, B",Channel One`
the code extracts the name `B",Channel One` and the group `""` — not
`Channel One` and `A, B` as the claim states — because `line.split(',', 1)`
cuts at the FIRST comma. -/
theorem c1_counterexample :
    parse_m3u_line "#EXTINF:-1 group-title=\"A, B\",Channel One"
        = (some "B\",Channel One", some "", none)
      ∧ (some "B\",Channel One" ≠ some ("Channel One" : String))
      ∧ (some "" ≠ some ("A, B" : String)) := by
  refine ⟨by decide, by decide, by decide⟩

/-- C1, amended: the display name is the stripped substring strictly after
the FIRST comma of the info line (so commas inside preceding attribute text
DO split the name), and both attributes are extracted only from the part
before that comma. -/
theorem c1_first_comma (pre post : List Char) (h : ',' ∉ pre) :
    parse_m3u_lineL (pre ++ ',' :: post)
      = (some (pyStripL post), extractAttr pre GROUP_ATTR, extractAttr pre LOGO_ATTR) := by
  unfold parse_m3u_lineL
  rw [splitFirstComma_append pre post h]

/-- C1, witness for `c1_first_comma` at the claim's own example line. -/
theorem c1_first_comma_witness :
    (',' ∉ "#EXTINF:-1 group-title=\"A".toList)
      ∧ parse_m3u_lineL ("#EXTINF:-1 group-title=\"A".toList ++ ',' :: " B\",Channel One".toList)
          = (some (pyStripL " B\",Channel One".toList),
             extractAttr "#EXTINF:-1 group-title=\"A".toList GROUP_ATTR,
             extractAttr "#EXTINF:-1 group-title=\"A".toList LOGO_ATTR) :=
  ⟨by decide, c1_first_comma _ _ (by decide)⟩

/-! ## C6: malformed playlist content -/

/-- C6, counterexample: with a previously parsed non-empty state, loading an
existing local file whose content is not a playlist (it fails
`validate_m3u`) REPLACES the previous channels and categories with the
empty parse result instead of leaving them untouched — `load_playlist`
clears `self.channels`/`self.categories` before parsing and never
validates. -/
theorem c6_counterexample :
    validate_m3u "this is not a playlist" = false
      ∧ load_playlist_full (load_playlist ["#EXTINF:-1,One", "http://a"]) true
          ["this is not a playlist"]
          = ⟨[], [(CATEGORY_ALL, [])]⟩
      ∧ (load_playlist ["#EXTINF:-1,One", "http://a"]).channels ≠ []
      ∧ load_playlist_full (load_playlist ["#EXTINF:-1,One", "http://a"]) true
          ["this is not a playlist"]
          ≠ load_playlist ["#EXTINF:-1,One", "http://a"] := by
  refine ⟨by decide, by decide, by decide, by decide⟩

/-- C6, amended: only the DOWNLOAD path validates content — a downloaded
non-playlist is signalled non-fatally (`(False, "Файл не является
плейлистом")`) and the previous on-disk file is left in place; a direct
load of an existing local file, however, replaces the previous parsed
state with the fresh parse result whatever the content is (so malformed
content resets the state to empty rather than preserving it), and only a
missing file leaves the previous state untouched. -/
theorem c6_malformed_playlist (content : String) (oldFile : Option String)
    (prev : LoadState) (lines : List String)
    (h : validate_m3u content = false) :
    playlistDownload_run content oldFile
        = ((false, "Файл не является плейлистом"), oldFile)
      ∧ load_playlist_full prev true lines = load_playlist lines
      ∧ load_playlist_full prev false lines = prev := by
  refine ⟨?_, rfl, rfl⟩
  simp [playlistDownload_run, h]

/-- C6, witness for `c6_malformed_playlist`. -/
theorem c6_malformed_playlist_witness :
    validate_m3u "oops" = false
      ∧ (playlistDownload_run "oops" (some "#EXTM3U")
            = ((false, "Файл не является плейлистом"), some "#EXTM3U")
          ∧ load_playlist_full ⟨[], [(CATEGORY_ALL, [])]⟩ true ["#EXTM3U"]
              = load_playlist ["#EXTM3U"]
          ∧ load_playlist_full ⟨[], [(CATEGORY_ALL, [])]⟩ false ["#EXTM3U"]
              = ⟨[], [(CATEGORY_ALL, [])]⟩) :=
  ⟨by decide,
   c6_malformed_playlist "oops" (some "#EXTM3U") ⟨[], [(CATEGORY_ALL, [])]⟩
     ["#EXTM3U"] (by decide)⟩

/-! ## C7: category display order -/

/-- C7, counterexample: for a playlist with one Latin-named group, the
displayed category list is `["News", "Все каналы"]`: plain `sorted()`
puts the Latin name first (Cyrillic code points are larger), so the
all-channels sentinel is NOT first. -/
theorem c7_counterexample :
    update_categories
        (load_playlist ["#EXTINF:-1 group-title=\"News\",BBC", "http://b"]).categories
        = ["News", "Все каналы"]
      ∧ (["News", "Все каналы"].head? ≠ some CATEGORY_ALL) := by
  refine ⟨by decide, by decide⟩

/-- C7, amended: the displayed category list is the category keys sorted
purely lexicographically by code point, with NO special-casing of the
all-channels sentinel (the code merely selects it as the current item
afterwards); in particular any Latin-named category precedes it. -/
theorem c7_sort_order (cats : List (String × List Channel)) :
    List.Sorted le' (update_categories cats)
      ∧ (update_categories cats).Perm (cats.map Prod.fst) := by
  exact ⟨List.sorted_insertionSort le' _, List.perm_insertionSort le' _⟩

/-! ## C9: registry load robustness -/

/-- C9: `load_playlists_data` on a missing file, on a file whose JSON fails
to parse (truncated/corrupt), or on parsed JSON that is not an object,
yields the empty registry — no playlist entries and no last-active
playlist — and no error escapes (the handler catches everything). -/
theorem c9_registry_load :
    (∀ parsed, load_playlists_data false parsed = ⟨.obj [], none⟩)
      ∧ (∀ e, load_playlists_data true (.error e) = ⟨.obj [], none⟩)
      ∧ load_playlists_data true (.ok .null) = ⟨.obj [], none⟩
      ∧ (∀ b, load_playlists_data true (.ok (.bool b)) = ⟨.obj [], none⟩)
      ∧ (∀ n, load_playlists_data true (.ok (.num n)) = ⟨.obj [], none⟩)
      ∧ (∀ s, load_playlists_data true (.ok (.str s)) = ⟨.obj [], none⟩)
      ∧ (∀ l, load_playlists_data true (.ok (.arr l)) = ⟨.obj [], none⟩)
      ∧ load_playlists_data true (.ok (.obj [])) = ⟨.obj [], none⟩ :=
  ⟨fun _ => rfl, fun _ => rfl, rfl, fun _ => rfl, fun _ => rfl, fun _ => rfl,
   fun _ => rfl, rfl⟩

/-! ## C10: validation is a raw substring check -/

/-- C10: `validate_m3u` accepts exactly the non-empty inputs containing
`#EXTM3U` or `#EXTINF` anywhere as a contiguous substring (not only
line-initial); an HTML error page that merely mentions `#EXTINF` passes
validation although parsing it yields zero channels. -/
theorem c10_validation_substring :
    (∀ content : String,
        validate_m3u content = true
          ↔ (content ≠ ""
              ∧ ("#EXTM3U".toList <:+: content.toList
                  ∨ "#EXTINF".toList <:+: content.toList)))
      ∧ validate_m3u "<html>error: #EXTINF unsupported</html>" = true
      ∧ (load_playlist ["<html>error: #EXTINF unsupported</html>"]).channels = [] := by
  refine ⟨fun content => ?_, by decide, by decide⟩
  simp only [validate_m3u, Bool.and_eq_true, Bool.or_eq_true, pyIn, seqIn_iff,
    Bool.not_eq_true']
  constructor
  · rintro ⟨h1, h2⟩
    refine ⟨fun hemp => ?_, h2⟩
    rw [hemp] at h1
    exact absurd h1 (by decide)
  · rintro ⟨h1, h2⟩
    refine ⟨?_, h2⟩
    cases he : content.isEmpty
    · rfl
    · exact absurd (String.isEmpty_iff content |>.mp he) h1

/-! ## C4: completion handling of a dispatched fetch -/

/-- C4: the claim is right about the code's intent but the code is wrong on
one of the three failure kinds.  A response that is not/a broken image is
emitted as a null pixmap and, like success, leads `_on_icon_loaded` to
cache an outcome under the URL, delete the URL from
`pending_icon_downloads`, and promote the next queued task (second block).
But a TRANSPORT failure raises inside `ImageDownloadThread.run`, whose
`@safe_call(silent=True)` decorator swallows the exception before the
`finished` signal is emitted: no handler runs, so nothing is cached, the
URL stays in the in-flight map forever, and no queued task is promoted
(first block: the manager state is completely unchanged). -/
theorem c4_transport_failure_bug :
    (∀ (st : IconState) (u : String) (i : Nat),
        fetchComplete st u i .transportError = st)
      ∧ (fetchComplete deadState deadURL 1 .transportError = deadState
          ∧ assocGet deadState.channel_icons deadURL = none
          ∧ assocGet deadState.pending deadURL = some 1
          ∧ deadState.queue ≠ [])
      ∧ (assocGet (fetchComplete deadState deadURL 1 .badImage).channel_icons deadURL
            = some .fallback
          ∧ assocGet (fetchComplete deadState deadURL 1 .badImage).pending deadURL = none
          ∧ (fetchComplete deadState deadURL 1 .badImage).pending
              = [("http://u2/icon.png", 2)]
          ∧ (fetchComplete deadState deadURL 1 .badImage).queue = []) := by
  refine ⟨fun st u i => rfl, ⟨rfl, by decide, by decide, by decide⟩,
    by decide, by decide, by decide, by decide⟩

/-! ## Counterexamples for C2, C3, C5 -/

/-- C2, counterexample: a parsed channel whose info line has no
`group-title` receives the sentinel group `"Без категории"` in its `group`
field, but NO category sequence is created for the sentinel (`if
current_group:` is false), so the channel appears in no named group at all
— only in the all-channels sequence — and the union of named-group
sequences misses it. -/
theorem c2_counterexample :
    load_playlist ["#EXTINF:-1,NoGroup", "http://u"]
        = ⟨[⟨"NoGroup", "http://u", CATEGORY_NONE, none⟩],
           [(CATEGORY_ALL, [⟨"NoGroup", "http://u", CATEGORY_NONE, none⟩])]⟩
      ∧ assocGet (load_playlist ["#EXTINF:-1,NoGroup", "http://u"]).categories
          CATEGORY_NONE = none
      ∧ (load_playlist ["#EXTINF:-1,NoGroup", "http://u"]).channels ≠ [] := by
  refine ⟨by decide, by decide, by decide⟩

/-- C3, counterexample: two icon requests for the same uncached URL from
two list rows, then queue processing and the completion of the single
dispatched fetch: exactly one thread was ever started (dedup holds), but
only the first row's item receives the resolved icon — the second request
was dropped without being recorded, so its item still shows the fallback
after the fetch completed. -/
theorem c3_counterexample :
    (fetchComplete
        (process_download_queue
          (get_channel_icon
            (get_channel_icon initIcon (some "http://x") "a" 1)
            (some "http://x") "b" 2))
        "http://x" 1 .ok).active = [("http://x", 1)]
      ∧ assocGet (fetchComplete
          (process_download_queue
            (get_channel_icon
              (get_channel_icon initIcon (some "http://x") "a" 1)
              (some "http://x") "b" 2))
          "http://x" 1 .ok).items 1 = some (.loaded "http://x")
      ∧ assocGet (fetchComplete
          (process_download_queue
            (get_channel_icon
              (get_channel_icon initIcon (some "http://x") "a" 1)
              (some "http://x") "b" 2))
          "http://x" 1 .ok).items 2 = some .fallback
      ∧ some Icon.fallback ≠ some (Icon.loaded "http://x") := by
  refine ⟨by decide, by decide, by decide, by decide⟩

/-- C5, counterexample: six distinct uncached URLs are requested (M = 6 >
K = 5); every dispatched fetch terminates — `"u1"`'s by a transport
exception, the other five normally.  Afterwards `"u1"` has no cached
outcome and is still recorded as in flight (nothing can ever remove it),
so not all M URLs resolve even though every fetch terminated; the
concurrency cap itself was respected throughout (final in-flight map has
the single stuck entry). -/
theorem c5_counterexample :
    assocGet (runEvents initIcon sixUrlTrace).channel_icons "u1" = none
      ∧ (runEvents initIcon sixUrlTrace).pending = [("u1", 1)]
      ∧ (runEvents initIcon sixUrlTrace).queue = []
      ∧ (runEvents initIcon sixUrlTrace).channel_icons.map Prod.fst
          = ["u2", "u3", "u4", "u5", "u6"]
      ∧ (runEvents initIcon sixUrlTrace).active.map Prod.fst
          = ["u1", "u2", "u3", "u4", "u5", "u6"] := by
  refine ⟨by decide, by decide, by decide, by decide, by decide⟩

/-! ## C8: search/filter -/

/-- C8: for every category and search string, the filtered result is the
category's own sequence (the empty-search result) filtered — hence a
subsequence preserving source order — keeping exactly the channels whose
lowered name contains the lowered search text; the empty search keeps
everything, and an empty or unknown category yields the empty list rather
than a fault. -/
theorem c8_search_filter (cats : List (String × List Channel)) (category s : String) :
    filter_channels cats category s
        = (filter_channels cats category "").filter
            (fun ch => pyIn (pyLower s) (pyLower ch.name))
      ∧ (filter_channels cats category s).Sublist (filter_channels cats category "")
      ∧ (∀ ch, ch ∈ filter_channels cats category s
            ↔ ch ∈ filter_channels cats category ""
                ∧ pyIn (pyLower s) (pyLower ch.name) = true)
      ∧ (assocGet cats category = none → filter_channels cats category s = []) := by
  have key : filter_channels cats category s
      = (filter_channels cats category "").filter
          (fun ch => pyIn (pyLower s) (pyLower ch.name)) := by
    unfold filter_channels
    by_cases hc : category = ""
    · simp [hc]
    · simp only [if_neg hc]
      cases hget : assocGet cats category with
      | none => simp
      | some chs =>
        simp only
        have h0 : (pyLower "" = "") := rfl
        rw [if_pos h0]
        by_cases hs : pyLower s = ""
        · rw [if_pos hs]
          simp only [hs]
          symm
          refine List.filter_eq_self.mpr fun a _ => ?_
          exact seqIn_nil_left _
        · rw [if_neg hs]
  refine ⟨key, ?_, ?_, ?_⟩
  · rw [key]; exact List.filter_sublist _
  · intro ch; rw [key]; exact List.mem_filter
  · intro h
    unfold filter_channels
    by_cases hc : category = ""
    · simp [hc]
    · simp [if_neg hc, h]

/-! ## C2: group partition -/

theorem assocGet_catAppend_self (m : List (String × List Channel)) (k : String)
    (c : Channel) :
    assocGet (catAppend m k c) k = some ((assocGet m k).getD [] ++ [c]) := by
  induction m with
  | nil => simp [catAppend, assocGet]
  | cons p t ih =>
    obtain ⟨k', l⟩ := p
    by_cases h : k' = k
    · subst h; simp [catAppend, assocGet]
    · simp [catAppend, assocGet, h, ih]

theorem assocGet_catAppend_ne (m : List (String × List Channel)) (k g : String)
    (c : Channel) (h : k ≠ g) :
    assocGet (catAppend m k c) g = assocGet m g := by
  induction m with
  | nil => simp [catAppend, assocGet, h]
  | cons p t ih =>
    obtain ⟨k', l⟩ := p
    by_cases hk : k' = k
    · subst hk; simp [catAppend, assocGet, h, ih]
    · simp only [catAppend, if_neg hk, assocGet]
      by_cases hg : k' = g
      · simp [hg]
      · simp [hg, ih]

theorem buildStep_get (m : List (String × List Channel)) (e : MEntry) (g : String) :
    assocGet (buildStep m e) g =
      match assocGet m g with
      | some l => some (l ++ addedTo g e)
      | none => if addedTo g e = [] then none else some (addedTo g e) := by
  unfold buildStep addedTo
  cases hk : groupKey e with
  | none =>
    by_cases hg : g = CATEGORY_ALL
    · subst hg
      rw [assocGet_catAppend_self]
      cases hm : assocGet m CATEGORY_ALL <;> simp [hk]
    · rw [assocGet_catAppend_ne _ _ _ _ (fun h => hg h.symm)]
      cases hm : assocGet m g <;> simp [hk, hg]
  | some k =>
    by_cases hg : g = CATEGORY_ALL
    · subst hg
      by_cases hkg : k = CATEGORY_ALL
      · subst hkg
        rw [assocGet_catAppend_self, assocGet_catAppend_self]
        cases hm : assocGet m CATEGORY_ALL <;> simp [hk]
      · rw [assocGet_catAppend_ne _ _ _ _ hkg, assocGet_catAppend_self]
        cases hm : assocGet m CATEGORY_ALL <;> simp [hk, hkg]
    · by_cases hkg : k = g
      · subst hkg
        rw [assocGet_catAppend_self,
          assocGet_catAppend_ne _ _ _ _ (fun h => hg h.symm)]
        cases hm : assocGet m k <;> simp [hk, hg]
      · rw [assocGet_catAppend_ne _ _ _ _ hkg,
          assocGet_catAppend_ne _ _ _ _ (fun h => hg h.symm)]
        cases hm : assocGet m g <;> simp [hk, hg, hkg]

theorem buildCats_get : ∀ (es : List MEntry) (m : List (String × List Channel))
    (g : String),
    assocGet (buildCats m es) g =
      match assocGet m g with
      | some l => some (l ++ addedAll g es)
      | none => if addedAll g es = [] then none else some (addedAll g es)
  | [], m, g => by
    cases hm : assocGet m g <;> simp [buildCats, addedAll, hm]
  | e :: rest, m, g => by
    have step := buildStep_get m e g
    have hcons : addedAll g (e :: rest) = addedTo g e ++ addedAll g rest := rfl
    simp only [buildCats]
    rw [buildCats_get rest (buildStep m e) g]
    cases hm : assocGet m g with
    | some l =>
      rw [hm] at step
      dsimp only at step
      rw [step]
      dsimp only
      rw [hcons, List.append_assoc]
    | none =>
      rw [hm] at step
      dsimp only at step
      by_cases ha : addedTo g e = []
      · rw [if_pos ha] at step
        rw [step]
        dsimp only
        have hsame : addedAll g (e :: rest) = addedAll g rest := by
          rw [hcons, ha, List.nil_append]
        rw [hsame]
      · rw [if_neg ha] at step
        rw [step]
        dsimp only
        have hne : addedAll g (e :: rest) ≠ [] := by
          rw [hcons]
          intro hcontra
          exact ha (List.append_eq_nil.mp hcontra).1
        rw [if_neg hne, hcons]

theorem addedAll_of_ne (g : String) (hg : g ≠ CATEGORY_ALL) :
    ∀ es : List MEntry,
      addedAll g es
        = (es.filter (fun e => decide (groupKey e = some g))).map mkChannel
  | [] => rfl
  | e :: rest => by
    have ih := addedAll_of_ne g hg rest
    show addedTo g e ++ addedAll g rest = _
    by_cases hk : groupKey e = some g
    · simp [addedTo, hg, hk, ih, List.filter_cons]
    · simp [addedTo, hg, hk, ih, List.filter_cons]

theorem addedAll_all : ∀ es : List MEntry,
    (∀ e ∈ es, groupKey e ≠ some CATEGORY_ALL) →
      addedAll CATEGORY_ALL es = es.map mkChannel
  | [], _ => rfl
  | e :: rest, hall => by
    have ih := addedAll_all rest (fun x hx => hall x (List.mem_cons_of_mem e hx))
    have he : groupKey e ≠ some CATEGORY_ALL := hall e (List.mem_cons_self e rest)
    show addedTo CATEGORY_ALL e ++ addedAll CATEGORY_ALL rest = _
    simp [addedTo, he, ih]

/-- The faithful `load_playlist` loop decomposes as: channels are the map
of `mkChannel` over the completed entry tuples, and the categories are the
fold of `buildStep` over the same tuples. -/
theorem load_loop_eq : ∀ (lines : List String)
    (pend : Option String × Option String × Option String) (st : LoadState),
    load_loop pend st lines
      = ⟨st.channels ++ (entries_loop pend lines).map mkChannel,
         buildCats st.categories (entries_loop pend lines)⟩
  | [], pend, st => by
    obtain ⟨cn, cg, cl⟩ := pend
    simp [load_loop, entries_loop, buildCats]
  | raw :: rest, pend, st => by
    obtain ⟨cn, cg, cl⟩ := pend
    simp only [load_loop, entries_loop]
    by_cases h1 : pyStrip raw = ""
    · rw [if_pos h1, if_pos h1]
      exact load_loop_eq rest _ _
    · rw [if_neg h1, if_neg h1]
      by_cases h2 : strStartsWith (pyStrip raw) "#EXTINF" = true
      · rw [if_pos h2, if_pos h2]
        exact load_loop_eq rest _ _
      · rw [if_neg h2, if_neg h2]
        by_cases h3 : ((!strStartsWith (pyStrip raw) "#") && optTruthy cn) = true
        · rw [if_pos h3, if_pos h3]
          rw [load_loop_eq rest]
          have hch :
              (⟨cn.getD "", pyStrip raw, pyOrS cg CATEGORY_NONE, cl⟩ : Channel)
                = mkChannel ⟨cn.getD "", cg, cl, pyStrip raw⟩ := rfl
          have hstep :
              (if optTruthy cg = true
                then catAppend (catAppend st.categories CATEGORY_ALL
                        (mkChannel ⟨cn.getD "", cg, cl, pyStrip raw⟩))
                      (cg.getD "") (mkChannel ⟨cn.getD "", cg, cl, pyStrip raw⟩)
                else catAppend st.categories CATEGORY_ALL
                      (mkChannel ⟨cn.getD "", cg, cl, pyStrip raw⟩))
              = buildStep st.categories ⟨cn.getD "", cg, cl, pyStrip raw⟩ := by
            unfold buildStep groupKey
            by_cases hg : optTruthy cg = true
            · rw [if_pos hg]
              dsimp only
              rw [if_pos hg]
            · rw [if_neg hg]
              dsimp only
              rw [if_neg hg]
          simp only [List.map_cons, hch, ← hstep, buildCats]
          rw [List.append_assoc, List.singleton_append]
        · rw [if_neg h3, if_neg h3]
          exact load_loop_eq rest _ _

/-- C2, amended: provided no source group is spelled exactly like the
all-channels sentinel, (1) the all-channels sequence lists every parsed
channel exactly once, in source order; (2) for every other category name
`g`, the stored sequence is exactly the channels whose raw `group-title`
was `g`, once each, in source order — in particular a channel with an
empty/missing group (raw group key `none`) belongs to NO named group, so
the union of the named-group sequences is exactly the channels with
non-empty source groups; and (3) a named category exists precisely for the
non-empty raw groups that occur. -/
theorem c2_group_partition (lines : List String)
    (hall : ∀ e ∈ parse_entries lines, groupKey e ≠ some CATEGORY_ALL) :
    assocGet (load_playlist lines).categories CATEGORY_ALL
        = some (load_playlist lines).channels
      ∧ (∀ g, g ≠ CATEGORY_ALL →
          (assocGet (load_playlist lines).categories g).getD []
            = ((parse_entries lines).filter
                (fun e => decide (groupKey e = some g))).map mkChannel)
      ∧ (∀ g, g ≠ CATEGORY_ALL →
          ((assocGet (load_playlist lines).categories g).isSome = true
            ↔ ∃ e ∈ parse_entries lines, groupKey e = some g)) := by
  have hload : load_playlist lines
      = ⟨(parse_entries lines).map mkChannel,
         buildCats [(CATEGORY_ALL, [])] (parse_entries lines)⟩ := by
    unfold load_playlist parse_entries
    rw [load_loop_eq]
    rfl
  rw [hload]
  dsimp only
  refine ⟨?_, ?_, ?_⟩
  · rw [buildCats_get]
    have h0 : assocGet [(CATEGORY_ALL, ([] : List Channel))] CATEGORY_ALL
        = some [] := by simp [assocGet]
    rw [h0]
    dsimp only
    rw [addedAll_all _ hall, List.nil_append]
  · intro g hg
    rw [buildCats_get]
    have h0 : assocGet [(CATEGORY_ALL, ([] : List Channel))] g = none := by
      simp only [assocGet, if_neg (fun h : CATEGORY_ALL = g => hg h.symm)]
    rw [h0]
    dsimp only
    rw [addedAll_of_ne g hg]
    by_cases hx : ((parse_entries lines).filter
        (fun e => decide (groupKey e = some g))).map mkChannel = []
    · rw [if_pos hx, hx]; rfl
    · rw [if_neg hx]; rfl
  · intro g hg
    rw [buildCats_get]
    have h0 : assocGet [(CATEGORY_ALL, ([] : List Channel))] g = none := by
      simp only [assocGet, if_neg (fun h : CATEGORY_ALL = g => hg h.symm)]
    rw [h0]
    dsimp only
    rw [addedAll_of_ne g hg]
    by_cases hx : ((parse_entries lines).filter
        (fun e => decide (groupKey e = some g))).map mkChannel = []
    · rw [if_pos hx]
      simp only [Option.isSome_none, Bool.false_eq_true, false_iff]
      rintro ⟨e, he, hk⟩
      rw [List.map_eq_nil_iff, List.filter_eq_nil_iff] at hx
      exact absurd (decide_eq_true hk) (hx e he)
    · rw [if_neg hx]
      simp only [Option.isSome_some, true_iff]
      have hf : (parse_entries lines).filter
          (fun e => decide (groupKey e = some g)) ≠ [] := by
        intro h; exact hx (by rw [h]; rfl)
      obtain ⟨e, he⟩ := List.exists_mem_of_ne_nil _ hf
      have hm := List.mem_filter.mp he
      exact ⟨e, hm.1, of_decide_eq_true hm.2⟩

/-- C2, witness for `c2_group_partition` at a two-entry playlist. -/
theorem c2_group_partition_witness :
    (∀ e ∈ parse_entries ["#EXTINF:-1 group-title=\"News\",BBC", "http://b"],
        groupKey e ≠ some CATEGORY_ALL)
      ∧ (assocGet
            (load_playlist ["#EXTINF:-1 group-title=\"News\",BBC", "http://b"]).categories
            CATEGORY_ALL
          = some (load_playlist ["#EXTINF:-1 group-title=\"News\",BBC", "http://b"]).channels
        ∧ (∀ g, g ≠ CATEGORY_ALL →
            (assocGet
                (load_playlist ["#EXTINF:-1 group-title=\"News\",BBC", "http://b"]).categories
                g).getD []
              = ((parse_entries ["#EXTINF:-1 group-title=\"News\",BBC", "http://b"]).filter
                  (fun e => decide (groupKey e = some g))).map mkChannel)
        ∧ (∀ g, g ≠ CATEGORY_ALL →
            ((assocGet
                (load_playlist ["#EXTINF:-1 group-title=\"News\",BBC", "http://b"]).categories
                g).isSome = true
              ↔ ∃ e ∈ parse_entries ["#EXTINF:-1 group-title=\"News\",BBC", "http://b"],
                  groupKey e = some g))) :=
  ⟨by decide, c2_group_partition _ (by decide)⟩

/-! ## C3: icon request deduplication -/

/-- C3, amended: two icon requests for the same uncached non-empty URL from
two distinct list rows, before the URL resolves, dispatch exactly one fetch
(`_active_threads` gains a single entry and `pending_icon_downloads` holds
the URL once); when that single fetch completes, its outcome is cached and
the FIRST row's item shows it, but the duplicate request was dropped
without being recorded, so the second row's item still shows the fallback
placeholder. -/
theorem c3_icon_dedup (u n1 n2 : String) (i1 i2 : Nat)
    (hu : u ≠ "") (hi : i1 ≠ i2) :
    (fetchComplete (process_download_queue
        (get_channel_icon (get_channel_icon initIcon (some u) n1 i1) (some u) n2 i2))
        u i1 .ok).active = [(u, i1)]
      ∧ assocGet (fetchComplete (process_download_queue
          (get_channel_icon (get_channel_icon initIcon (some u) n1 i1) (some u) n2 i2))
          u i1 .ok).channel_icons u = some (.loaded u)
      ∧ assocGet (fetchComplete (process_download_queue
          (get_channel_icon (get_channel_icon initIcon (some u) n1 i1) (some u) n2 i2))
          u i1 .ok).items i1 = some (.loaded u)
      ∧ assocGet (fetchComplete (process_download_queue
          (get_channel_icon (get_channel_icon initIcon (some u) n1 i1) (some u) n2 i2))
          u i1 .ok).items i2 = some .fallback := by
  have s1 : get_channel_icon initIcon (some u) n1 i1
      = ⟨[], [], [(u, n1, i1)], [(i1, .fallback)], [], 0, 0, 0, false⟩ := by
    simp [get_channel_icon, initIcon, assocGet, assocSet, hu]
  have s2 : get_channel_icon
        (⟨[], [], [(u, n1, i1)], [(i1, .fallback)], [], 0, 0, 0, false⟩ : IconState)
        (some u) n2 i2
      = ⟨[], [], [(u, n1, i1), (u, n2, i2)], [(i1, .fallback), (i2, .fallback)],
         [], 0, 0, 0, false⟩ := by
    simp [get_channel_icon, assocGet, assocSet, hu, hi]
  have s3 : process_download_queue
        (⟨[], [], [(u, n1, i1), (u, n2, i2)], [(i1, .fallback), (i2, .fallback)],
          [], 0, 0, 0, false⟩ : IconState)
      = ⟨[], [(u, i1)], [], [(i1, .fallback), (i2, .fallback)],
         [(u, i1)], 0, 0, 0, false⟩ := by
    simp [process_download_queue, processLoop, assocGet, MAX_CONCURRENT_DOWNLOADS]
  have s4 : fetchComplete
        (⟨[], [(u, i1)], [], [(i1, .fallback), (i2, .fallback)],
          [(u, i1)], 0, 0, 0, false⟩ : IconState) u i1 .ok
      = ⟨[(u, .loaded u)], [], [], [(i1, .loaded u), (i2, .fallback)],
         [(u, i1)], 0, 0, 0, false⟩ := by
    simp [fetchComplete, imageThread_run, on_icon_loaded, assocErase, assocSet,
      assocGet, process_download_queue, processLoop, maybeResetStats, hi]
  rw [s1, s2, s3, s4]
  refine ⟨rfl, ?_, ?_, ?_⟩
  · simp [assocGet]
  · simp [assocGet]
  · simp [assocGet, hi]

/-- C3, witness for `c3_icon_dedup` at a concrete URL and two rows. -/
theorem c3_icon_dedup_witness :
    ("http://x" : String) ≠ ""
      ∧ (1 : Nat) ≠ 2
      ∧ ((fetchComplete (process_download_queue
            (get_channel_icon (get_channel_icon initIcon (some "http://x") "a" 1)
              (some "http://x") "b" 2)) "http://x" 1 .ok).active = [("http://x", 1)]
          ∧ assocGet (fetchComplete (process_download_queue
              (get_channel_icon (get_channel_icon initIcon (some "http://x") "a" 1)
                (some "http://x") "b" 2)) "http://x" 1 .ok).channel_icons "http://x"
              = some (.loaded "http://x")
          ∧ assocGet (fetchComplete (process_download_queue
              (get_channel_icon (get_channel_icon initIcon (some "http://x") "a" 1)
                (some "http://x") "b" 2)) "http://x" 1 .ok).items 1
              = some (.loaded "http://x")
          ∧ assocGet (fetchComplete (process_download_queue
              (get_channel_icon (get_channel_icon initIcon (some "http://x") "a" 1)
                (some "http://x") "b" 2)) "http://x" 1 .ok).items 2
              = some .fallback) :=
  ⟨by decide, by decide, c3_icon_dedup "http://x" "a" "b" 1 2 (by decide) (by decide)⟩

/-! ## C5: supporting lemmas about the association-list operations -/

theorem assocGet_eq_none_iff {κ α : Type} [DecidableEq κ] :
    ∀ (m : List (κ × α)) (k : κ), assocGet m k = none ↔ k ∉ m.map Prod.fst
  | [], k => by simp [assocGet]
  | (k', v) :: t, k => by
    by_cases h : k' = k
    · subst h; simp [assocGet]
    · simp [assocGet, h, assocGet_eq_none_iff t k, Ne.symm h]

theorem assocGet_append {κ α : Type} [DecidableEq κ] :
    ∀ (m m' : List (κ × α)) (k : κ),
      assocGet (m ++ m') k = ((assocGet m k).map some).getD (assocGet m' k)
  | [], m', k => rfl
  | (k', v) :: t, m', k => by
    by_cases h : k' = k
    · simp [assocGet, h]
    · simp [assocGet, h, assocGet_append t m' k]

theorem assocSet_of_none {κ α : Type} [DecidableEq κ] :
    ∀ (m : List (κ × α)) (k : κ) (v : α),
      assocGet m k = none → assocSet m k v = m ++ [(k, v)]
  | [], _, _, _ => rfl
  | (k', w) :: t, k, v, h => by
    by_cases hk : k' = k
    · exfalso
      rw [show assocGet ((k', w) :: t) k = if k' = k then some w else assocGet t k
          from rfl, if_pos hk] at h
      exact Option.noConfusion h
    · rw [show assocSet ((k', w) :: t) k v
          = if k' = k then (k, v) :: t else (k', w) :: assocSet t k v from rfl,
        if_neg hk]
      rw [show assocGet ((k', w) :: t) k = if k' = k then some w else assocGet t k
          from rfl, if_neg hk] at h
      rw [assocSet_of_none t k v h]
      rfl

theorem assocErase_cons_self {κ α : Type} [DecidableEq κ] (k : κ) (v : α)
    (t : List (κ × α)) : assocErase ((k, v) :: t) k = t := by
  show (if k = k then t else (k, v) :: assocErase t k) = t
  rw [if_pos rfl]

theorem length_assocErase_le {κ α : Type} [DecidableEq κ] :
    ∀ (m : List (κ × α)) (k : κ), (assocErase m k).length ≤ m.length
  | [], _ => Nat.le_refl 0
  | (k', v) :: t, k => by
    show (if k' = k then t else (k', v) :: assocErase t k).length ≤ t.length + 1
    split
    · exact Nat.le_succ _
    · simpa using Nat.succ_le_succ (length_assocErase_le t k)

/-! Field-preservation facts -/

theorem maybeResetStats_fields (st : IconState) :
    (maybeResetStats st).pending = st.pending
      ∧ (maybeResetStats st).queue = st.queue
      ∧ (maybeResetStats st).channel_icons = st.channel_icons
      ∧ (maybeResetStats st).items = st.items
      ∧ (maybeResetStats st).active = st.active
      ∧ (maybeResetStats st).isClosing = st.isClosing := by
  unfold maybeResetStats
  split <;> exact ⟨rfl, rfl, rfl, rfl, rfl, rfl⟩

theorem get_channel_icon_pending (st : IconState) (l : Option String) (n : String)
    (i : Nat) : (get_channel_icon st l n i).pending = st.pending := by
  unfold get_channel_icon
  cases l with
  | none => rfl
  | some url =>
    dsimp only
    split
    · rfl
    · split
      · rfl
      · split
        · rfl
        · rfl

/-! The concurrency cap -/

theorem processLoop_pending_le : ∀ (fuel : Nat) (st : IconState),
    st.pending.length ≤ MAX_CONCURRENT_DOWNLOADS →
    (processLoop fuel st).pending.length ≤ MAX_CONCURRENT_DOWNLOADS
  | 0, _, h => h
  | fuel + 1, st, h => by
    unfold processLoop
    split
    next hlt =>
      split
      next => exact h
      next url nm item rest heq =>
        split
        next => exact processLoop_pending_le fuel _ h
        next =>
          refine processLoop_pending_le fuel _ ?_
          simpa using Nat.succ_le_of_lt hlt
    next => exact h

theorem process_download_queue_pending_le (st : IconState)
    (h : st.pending.length ≤ MAX_CONCURRENT_DOWNLOADS) :
    (process_download_queue st).pending.length ≤ MAX_CONCURRENT_DOWNLOADS := by
  unfold process_download_queue
  split
  · exact h
  · exact processLoop_pending_le _ _ h

theorem fetchComplete_pending_le (st : IconState) (u : String) (i : Nat)
    (r : FetchResult) (h : st.pending.length ≤ MAX_CONCURRENT_DOWNLOADS) :
    (fetchComplete st u i r).pending.length ≤ MAX_CONCURRENT_DOWNLOADS := by
  have key : ∀ b : Bool,
      (on_icon_loaded st u b i).pending.length ≤ MAX_CONCURRENT_DOWNLOADS := by
    intro b
    unfold on_icon_loaded
    split
    · exact h
    · rw [(maybeResetStats_fields _).1]
      refine process_download_queue_pending_le _ ?_
      exact le_trans (length_assocErase_le st.pending u) h
  cases r with
  | ok => exact key true
  | badImage => exact key false
  | transportError => exact h

theorem runEvents_pending_le : ∀ (evs : List IconEv) (st : IconState),
    st.pending.length ≤ MAX_CONCURRENT_DOWNLOADS →
    (runEvents st evs).pending.length ≤ MAX_CONCURRENT_DOWNLOADS
  | [], _, h => h
  | ev :: rest, st, h => by
    show (runEvents (stepEv st ev) rest).pending.length ≤ MAX_CONCURRENT_DOWNLOADS
    refine runEvents_pending_le rest _ ?_
    cases ev with
    | req l n i =>
      show (get_channel_icon st l n i).pending.length ≤ MAX_CONCURRENT_DOWNLOADS
      rw [get_channel_icon_pending]; exact h
    | proc => exact process_download_queue_pending_le st h
    | complete u i r => exact fetchComplete_pending_le st u i r h

/-- Under distinct, uncached pending/queued URLs, the dispatch loop only
transfers queue entries to the in-flight map: the cache, items and closing
flag are untouched, the concatenated key sequence (in-flight keys followed
by queued URLs) is preserved verbatim, and on exit either the queue is
empty or the in-flight map is full. -/
theorem processLoop_spec : ∀ (fuel : Nat) (st : IconState),
    st.queue.length ≤ fuel →
    st.pending.length ≤ MAX_CONCURRENT_DOWNLOADS →
    (st.pending.map Prod.fst ++ st.queue.map (fun t => t.1)).Nodup →
    (∀ u ∈ st.pending.map Prod.fst ++ st.queue.map (fun t => t.1),
        assocGet st.channel_icons u = none) →
    (processLoop fuel st).channel_icons = st.channel_icons
      ∧ (processLoop fuel st).items = st.items
      ∧ (processLoop fuel st).isClosing = st.isClosing
      ∧ (processLoop fuel st).pending.map Prod.fst
            ++ (processLoop fuel st).queue.map (fun t => t.1)
          = st.pending.map Prod.fst ++ st.queue.map (fun t => t.1)
      ∧ ((processLoop fuel st).queue = []
          ∨ (processLoop fuel st).pending.length = MAX_CONCURRENT_DOWNLOADS)
      ∧ (processLoop fuel st).pending.length ≤ MAX_CONCURRENT_DOWNLOADS
  | 0, st, hf, hle, _, _ => by
    have hq : st.queue = [] := List.eq_nil_of_length_eq_zero (Nat.le_zero.mp hf)
    exact ⟨rfl, rfl, rfl, rfl, Or.inl hq, hle⟩
  | fuel + 1, st, hf, hle, hnd, hdisj => by
    unfold processLoop
    split
    next hlt =>
      split
      next hq => exact ⟨rfl, rfl, rfl, rfl, Or.inl hq, hle⟩
      next url nm item rest hq =>
        have hqurl : st.queue.map (fun t => t.1) = url :: rest.map (fun t => t.1) := by
          rw [hq]; rfl
        split
        next hskip =>
          exfalso
          cases Bool.or_eq_true_iff.mp hskip with
          | inl hp =>
            have hmem1 : url ∈ st.pending.map Prod.fst := by
              by_contra hnot
              rw [← assocGet_eq_none_iff st.pending url] at hnot
              rw [hnot] at hp
              exact Bool.noConfusion hp
            have hmem2 : url ∈ st.queue.map (fun t => t.1) := by
              rw [hqurl]; exact List.mem_cons_self url _
            exact (List.nodup_append.mp hnd).2.2 hmem1 hmem2
          | inr hc =>
            have hmem : url ∈ st.pending.map Prod.fst
                ++ st.queue.map (fun t => t.1) :=
              List.mem_append_right _ (by rw [hqurl]; exact List.mem_cons_self url _)
            rw [hdisj url hmem] at hc
            exact Bool.noConfusion hc
        next hskip =>
          have hconcat :
              ((st.pending ++ [(url, item)]).map Prod.fst
                  ++ rest.map (fun t => t.1))
                = st.pending.map Prod.fst ++ st.queue.map (fun t => t.1) := by
            rw [List.map_append, hqurl, List.append_assoc]
            rfl
          have hf' : rest.length ≤ fuel := by
            have := hf
            rw [hq] at this
            simpa using Nat.le_of_succ_le_succ this
          have hle' : (st.pending ++ [(url, item)]).length
              ≤ MAX_CONCURRENT_DOWNLOADS := by
            simpa using Nat.succ_le_of_lt hlt
          have hnd' := hconcat.symm ▸ hnd
          have hdisj' : ∀ u ∈ (st.pending ++ [(url, item)]).map Prod.fst
              ++ rest.map (fun t => t.1),
              assocGet st.channel_icons u = none := by
            intro u hu
            exact hdisj u (hconcat ▸ hu)
          have IH := processLoop_spec fuel
            { st with
              queue := rest
              pending := st.pending ++ [(url, item)]
              active := st.active ++ [(url, item)] } hf' hle' hnd' hdisj'
          refine ⟨IH.1, IH.2.1, IH.2.2.1, ?_, IH.2.2.2.2.1, IH.2.2.2.2.2⟩
          rw [IH.2.2.2.1]
          exact hconcat
    next hge =>
      have hfull : st.pending.length = MAX_CONCURRENT_DOWNLOADS :=
        Nat.le_antisymm hle (Nat.le_of_not_lt hge)
      exact ⟨rfl, rfl, rfl, rfl, Or.inr hfull, hle⟩

/-- `fetchComplete` for an emitting result, written through a Bool. -/
theorem fetchComplete_emit (st : IconState) (u : String) (i : Nat) (c : Bool) :
    fetchComplete st u i (if c then .ok else .badImage) = on_icon_loaded st u c i := by
  cases c <;> rfl

/-- `on_icon_loaded` on a live manager whose in-flight head is `(u, i)` and
whose cache misses `u`: written as an explicit record passed to promotion
and the statistics flush. -/
theorem on_icon_loaded_expand (st : IconState) (u : String) (i : Nat) (b : Bool)
    (tl : List (String × Nat))
    (hclose : st.isClosing = false)
    (hp : st.pending = (u, i) :: tl)
    (hcache : assocGet st.channel_icons u = none) :
    on_icon_loaded st u b i
      = maybeResetStats (process_download_queue
          ⟨st.channel_icons ++ [(u, if b then Icon.loaded u else Icon.fallback)],
           tl, st.queue,
           assocSet st.items i (if b then Icon.loaded u else Icon.fallback),
           st.active,
           if b then st.statsLoaded + 1 else st.statsLoaded,
           if b then st.statsFailed else st.statsFailed + 1,
           st.statsCache, st.isClosing⟩) := by
  unfold on_icon_loaded
  rw [if_neg (by rw [hclose]; exact fun h => Bool.noConfusion h)]
  dsimp only
  rw [hp, assocErase_cons_self, assocSet_of_none _ _ _ hcache]

/-- Promotion plus statistics flush after a completion, for any state with
distinct, uncached pending/queued URLs. -/
theorem post_completion_spec (s2 : IconState)
    (hc : s2.isClosing = false)
    (hle : s2.pending.length ≤ MAX_CONCURRENT_DOWNLOADS)
    (hnd : (s2.pending.map Prod.fst ++ s2.queue.map (fun t => t.1)).Nodup)
    (hdisj : ∀ v ∈ s2.pending.map Prod.fst ++ s2.queue.map (fun t => t.1),
        assocGet s2.channel_icons v = none) :
    (maybeResetStats (process_download_queue s2)).isClosing = false
      ∧ (maybeResetStats (process_download_queue s2)).channel_icons = s2.channel_icons
      ∧ (maybeResetStats (process_download_queue s2)).pending.map Prod.fst
            ++ (maybeResetStats (process_download_queue s2)).queue.map (fun t => t.1)
          = s2.pending.map Prod.fst ++ s2.queue.map (fun t => t.1)
      ∧ ((maybeResetStats (process_download_queue s2)).queue = []
          ∨ (maybeResetStats (process_download_queue s2)).pending.length
              = MAX_CONCURRENT_DOWNLOADS)
      ∧ (maybeResetStats (process_download_queue s2)).pending.length
          ≤ MAX_CONCURRENT_DOWNLOADS := by
  obtain ⟨m1, m2, m3, _, _, m6⟩ := maybeResetStats_fields (process_download_queue s2)
  have hpq : process_download_queue s2 = processLoop s2.queue.length s2 := by
    unfold process_download_queue
    rw [if_neg (by rw [hc]; exact fun h => Bool.noConfusion h)]
  obtain ⟨p1, _, p3, p4, p5, p6⟩ :=
    processLoop_spec s2.queue.length s2 (Nat.le_refl _) hle hnd hdisj
  refine ⟨?_, ?_, ?_, ?_, ?_⟩
  · rw [m6, hpq, p3, hc]
  · rw [m3, hpq, p1]
  · rw [m1, m2, hpq, p4]
  · rw [m1, m2, hpq]; exact p5
  · rw [m1, hpq]; exact p6

/-- The full effect of one emitted completion on a live, saturated-or-empty
manager state: the in-flight head resolves, its outcome is appended to the
cache, the concatenated key sequence loses exactly its head, and the
invariants needed to keep draining are re-established. -/
theorem completion_step (st : IconState) (u : String) (i : Nat) (b : Bool)
    (tl : List (String × Nat))
    (hclose : st.isClosing = false)
    (hp : st.pending = (u, i) :: tl)
    (hle : st.pending.length ≤ MAX_CONCURRENT_DOWNLOADS)
    (hnd : (st.pending.map Prod.fst ++ st.queue.map (fun t => t.1)).Nodup)
    (hdisj : ∀ v ∈ st.pending.map Prod.fst ++ st.queue.map (fun t => t.1),
        assocGet st.channel_icons v = none) :
    (on_icon_loaded st u b i).isClosing = false
      ∧ (on_icon_loaded st u b i).channel_icons
          = st.channel_icons ++ [(u, if b then Icon.loaded u else Icon.fallback)]
      ∧ (on_icon_loaded st u b i).pending.map Prod.fst
            ++ (on_icon_loaded st u b i).queue.map (fun t => t.1)
          = tl.map Prod.fst ++ st.queue.map (fun t => t.1)
      ∧ ((on_icon_loaded st u b i).queue = []
          ∨ (on_icon_loaded st u b i).pending.length = MAX_CONCURRENT_DOWNLOADS)
      ∧ (on_icon_loaded st u b i).pending.length ≤ MAX_CONCURRENT_DOWNLOADS
      ∧ (∀ v ∈ tl.map Prod.fst ++ st.queue.map (fun t => t.1),
          assocGet (on_icon_loaded st u b i).channel_icons v = none) := by
  have hpkqu : st.pending.map Prod.fst ++ st.queue.map (fun t => t.1)
      = u :: (tl.map Prod.fst ++ st.queue.map (fun t => t.1)) := by
    rw [hp]; rfl
  have hndc := hpkqu ▸ hnd
  have hu_notin : u ∉ tl.map Prod.fst ++ st.queue.map (fun t => t.1) :=
    (List.nodup_cons.mp hndc).1
  have hnd_tl : (tl.map Prod.fst ++ st.queue.map (fun t => t.1)).Nodup :=
    (List.nodup_cons.mp hndc).2
  have hcache : assocGet st.channel_icons u = none := by
    refine hdisj u ?_
    rw [hpkqu]; exact List.mem_cons_self u _
  have hle_tl : tl.length ≤ MAX_CONCURRENT_DOWNLOADS := by
    rw [hp] at hle
    exact le_trans (Nat.le_succ tl.length) (by simpa using hle)
  have hdisj_new : ∀ v ∈ tl.map Prod.fst ++ st.queue.map (fun t => t.1),
      assocGet (st.channel_icons
          ++ [(u, if b then Icon.loaded u else Icon.fallback)]) v = none := by
    intro v hv
    rw [assocGet_append]
    have h1 : assocGet st.channel_icons v = none := by
      refine hdisj v ?_
      rw [hpkqu]; exact List.mem_cons_of_mem u hv
    rw [h1]
    have hvu : ¬(u = v) := fun h => hu_notin (h ▸ hv)
    show assocGet [(u, _)] v = none
    rw [show assocGet [(u, if b then Icon.loaded u else Icon.fallback)] v
        = if u = v then some (if b then Icon.loaded u else Icon.fallback) else none
        from rfl, if_neg hvu]
  rw [on_icon_loaded_expand st u i b tl hclose hp hcache]
  have hpost := post_completion_spec
    ⟨st.channel_icons ++ [(u, if b then Icon.loaded u else Icon.fallback)],
     tl, st.queue,
     assocSet st.items i (if b then Icon.loaded u else Icon.fallback),
     st.active,
     if b then st.statsLoaded + 1 else st.statsLoaded,
     if b then st.statsFailed else st.statsFailed + 1,
     st.statsCache, st.isClosing⟩
    hclose hle_tl hnd_tl hdisj_new
  refine ⟨hpost.1, hpost.2.1, hpost.2.2.1, hpost.2.2.2.1, hpost.2.2.2.2, ?_⟩
  intro v hv
  rw [hpost.2.1]
  exact hdisj_new v hv

/-- Draining a live manager whose pending/queued URLs are distinct and
uncached, one emitted completion per step, empties both the in-flight map
and the queue and caches an outcome for every one of those URLs (appended
in completion order). -/
theorem drain_spec : ∀ (n : Nat) (f : String → Bool) (st : IconState),
    st.isClosing = false →
    st.pending.length + st.queue.length = n →
    st.pending.length ≤ MAX_CONCURRENT_DOWNLOADS →
    (st.queue = [] ∨ st.pending.length = MAX_CONCURRENT_DOWNLOADS) →
    (st.pending.map Prod.fst ++ st.queue.map (fun t => t.1)).Nodup →
    (∀ u ∈ st.pending.map Prod.fst ++ st.queue.map (fun t => t.1),
        assocGet st.channel_icons u = none) →
    (drain f n st).pending = []
      ∧ (drain f n st).queue = []
      ∧ (drain f n st).channel_icons.map Prod.fst
          = st.channel_icons.map Prod.fst
              ++ (st.pending.map Prod.fst ++ st.queue.map (fun t => t.1))
  | 0, f, st, _, hn, _, _, _, _ => by
    have hp : st.pending = [] := List.eq_nil_of_length_eq_zero (by omega)
    have hq : st.queue = [] := List.eq_nil_of_length_eq_zero (by omega)
    refine ⟨hp, hq, ?_⟩
    show st.channel_icons.map Prod.fst = _
    rw [hp, hq]
    simp
  | n + 1, f, st, hclose, hn, hle, hsat, hnd, hdisj => by
    cases hp : st.pending with
    | nil =>
      exfalso
      cases hsat with
      | inl hq => rw [hp, hq] at hn; simp at hn
      | inr hfull => rw [hp] at hfull; simp [MAX_CONCURRENT_DOWNLOADS] at hfull
    | cons head tl =>
      obtain ⟨u, i⟩ := head
      have hdrain : drain f (n + 1) st
          = drain f n (fetchComplete st u i (if f u then .ok else .badImage)) := by
        show (match st.pending with
          | [] => st
          | (u', i') :: _ =>
            drain f n (fetchComplete st u' i' (if f u' then .ok else .badImage))) = _
        rw [hp]
      rw [hdrain, fetchComplete_emit]
      obtain ⟨sc1, sc2, sc3, sc4, sc5, sc6⟩ :=
        completion_step st u i (f u) tl hclose hp hle hnd hdisj
      have hn' : (on_icon_loaded st u (f u) i).pending.length
          + (on_icon_loaded st u (f u) i).queue.length = n := by
        have hlen := congrArg List.length sc3
        rw [List.length_append, List.length_append, List.length_map,
          List.length_map, List.length_map, List.length_map] at hlen
        rw [hp] at hn
        simp only [List.length_cons] at hn
        omega
      have hnd' : ((on_icon_loaded st u (f u) i).pending.map Prod.fst
          ++ (on_icon_loaded st u (f u) i).queue.map (fun t => t.1)).Nodup := by
        rw [sc3]
        have hpkqu : st.pending.map Prod.fst ++ st.queue.map (fun t => t.1)
            = u :: (tl.map Prod.fst ++ st.queue.map (fun t => t.1)) := by
          rw [hp]; rfl
        exact (List.nodup_cons.mp (hpkqu ▸ hnd)).2
      have hdisj' : ∀ v ∈ (on_icon_loaded st u (f u) i).pending.map Prod.fst
          ++ (on_icon_loaded st u (f u) i).queue.map (fun t => t.1),
          assocGet (on_icon_loaded st u (f u) i).channel_icons v = none := by
        intro v hv
        rw [sc3] at hv
        exact sc6 v hv
      obtain ⟨d1, d2, d3⟩ := drain_spec n f (on_icon_loaded st u (f u) i)
        sc1 hn' sc5 sc4 hnd' hdisj'
      refine ⟨d1, d2, ?_⟩
      rw [d3, sc2, sc3, List.map_append]
      show (st.channel_icons.map Prod.fst ++ [u])
            ++ (tl.map Prod.fst ++ st.queue.map (fun t => t.1))
          = st.channel_icons.map Prod.fst
            ++ ((u :: tl.map Prod.fst) ++ st.queue.map (fun t => t.1))
      simp

/-- A batch of requests with non-empty URLs hitting a fresh manager (empty
cache, nothing in flight) only accumulates the queue, in order. -/
theorem requests_fold : ∀ (reqs : List (String × Nat)) (st : IconState),
    (∀ p ∈ reqs, p.1 ≠ "") →
    st.channel_icons = [] →
    st.pending = [] →
    (reqs.foldl (fun s p => get_channel_icon s (some p.1) "" p.2) st).channel_icons = []
      ∧ (reqs.foldl (fun s p => get_channel_icon s (some p.1) "" p.2) st).pending = []
      ∧ (reqs.foldl (fun s p => get_channel_icon s (some p.1) "" p.2) st).queue
          = st.queue ++ reqs.map (fun p => (p.1, "", p.2))
      ∧ (reqs.foldl (fun s p => get_channel_icon s (some p.1) "" p.2) st).isClosing
          = st.isClosing
  | [], st, _, hc, hp => ⟨hc, hp, by simp, rfl⟩
  | (u, i) :: rest, st, hne, hc, hp => by
    have hu : u ≠ "" := hne (u, i) (List.mem_cons_self _ _)
    have hstep : get_channel_icon st (some u) "" i
        = { st with items := assocSet st.items i Icon.fallback,
                    queue := st.queue ++ [(u, "", i)] } := by
      simp [get_channel_icon, hu, hc, hp, assocGet]
    rw [List.foldl_cons, hstep]
    have IH := requests_fold rest
      { st with items := assocSet st.items i Icon.fallback,
                queue := st.queue ++ [(u, "", i)] }
      (fun p hmem => hne p (List.mem_cons_of_mem _ hmem)) hc hp
    refine ⟨IH.1, IH.2.1, ?_, IH.2.2.2⟩
    rw [IH.2.2.1]
    simp

/-- C5, amended: (cap) for every sequence of icon-manager events, the
number of in-flight fetches never exceeds `MAX_CONCURRENT_DOWNLOADS`; and
(liveness) for any batch of requests over distinct non-empty uncached URLs
— of any size M, in particular M > 5 — if every dispatched fetch delivers
its completion signal (which success and decode failure do, but a
transport failure does not), then the queue and the in-flight map drain
completely and every requested URL ends up with a cached outcome, in
request order. -/
theorem c5_concurrency_cap (reqs : List (String × Nat)) (f : String → Bool)
    (hnd : (reqs.map Prod.fst).Nodup) (hne : ∀ p ∈ reqs, p.1 ≠ "") :
    (∀ evs : List IconEv,
        (runEvents initIcon evs).pending.length ≤ MAX_CONCURRENT_DOWNLOADS)
      ∧ (iconDrainedState f reqs).pending = []
      ∧ (iconDrainedState f reqs).queue = []
      ∧ (iconDrainedState f reqs).channel_icons.map Prod.fst = reqs.map Prod.fst := by
  refine ⟨fun evs => runEvents_pending_le evs initIcon (Nat.zero_le _), ?_⟩
  obtain ⟨f1, f2, f3, f4⟩ := requests_fold reqs initIcon hne rfl rfl
  set st1 := reqs.foldl (fun s p => get_channel_icon s (some p.1) "" p.2) initIcon
    with hst1
  have hq1 : st1.queue = reqs.map (fun p => (p.1, "", p.2)) := by
    rw [f3]; rfl
  have hclosing1 : st1.isClosing = false := f4
  have hkeys1 : st1.pending.map Prod.fst ++ st1.queue.map (fun t => t.1)
      = reqs.map Prod.fst := by
    rw [f2, hq1]
    simp only [List.map_nil, List.nil_append, List.map_map]
    rfl
  have hpq : process_download_queue st1 = processLoop st1.queue.length st1 := by
    unfold process_download_queue
    rw [if_neg (by rw [hclosing1]; exact fun h => Bool.noConfusion h)]
  have hle1 : st1.pending.length ≤ MAX_CONCURRENT_DOWNLOADS := by
    rw [f2]; exact Nat.zero_le _
  have hnd1 : (st1.pending.map Prod.fst ++ st1.queue.map (fun t => t.1)).Nodup := by
    rw [hkeys1]; exact hnd
  have hdisj1 : ∀ v ∈ st1.pending.map Prod.fst ++ st1.queue.map (fun t => t.1),
      assocGet st1.channel_icons v = none := by
    intro v _; rw [f1]; rfl
  obtain ⟨q1, _, q3, q4, q5, q6⟩ :=
    processLoop_spec st1.queue.length st1 (Nat.le_refl _) hle1 hnd1 hdisj1
  have hst2 : iconRequestsState reqs = processLoop st1.queue.length st1 := by
    unfold iconRequestsState
    rw [← hst1, hpq]
  have hclose2 : (iconRequestsState reqs).isClosing = false := by
    rw [hst2, q3, hclosing1]
  have hkeys2 : (iconRequestsState reqs).pending.map Prod.fst
      ++ (iconRequestsState reqs).queue.map (fun t => t.1) = reqs.map Prod.fst := by
    rw [hst2, q4, hkeys1]
  have hnd2 : ((iconRequestsState reqs).pending.map Prod.fst
      ++ (iconRequestsState reqs).queue.map (fun t => t.1)).Nodup := by
    rw [hkeys2]; exact hnd
  have hdisj2 : ∀ v ∈ (iconRequestsState reqs).pending.map Prod.fst
      ++ (iconRequestsState reqs).queue.map (fun t => t.1),
      assocGet (iconRequestsState reqs).channel_icons v = none := by
    intro v _; rw [hst2, q1, f1]; rfl
  have hsat2 : (iconRequestsState reqs).queue = []
      ∨ (iconRequestsState reqs).pending.length = MAX_CONCURRENT_DOWNLOADS := by
    rw [hst2]; exact q5
  have hle2 : (iconRequestsState reqs).pending.length ≤ MAX_CONCURRENT_DOWNLOADS := by
    rw [hst2]; exact q6
  obtain ⟨d1, d2, d3⟩ := drain_spec
    ((iconRequestsState reqs).pending.length + (iconRequestsState reqs).queue.length)
    f (iconRequestsState reqs) hclose2 rfl hle2 hsat2 hnd2 hdisj2
  refine ⟨d1, d2, ?_⟩
  show (drain f ((iconRequestsState reqs).pending.length
      + (iconRequestsState reqs).queue.length)
      (iconRequestsState reqs)).channel_icons.map Prod.fst = reqs.map Prod.fst
  rw [d3, hkeys2, hst2, q1, f1]
  rfl

/-- C5, witness for `c5_concurrency_cap` with six distinct URLs (M = 6 >
K = 5) all of which decode successfully. -/
theorem c5_concurrency_cap_witness :
    ((([("u1", 1), ("u2", 2), ("u3", 3), ("u4", 4), ("u5", 5), ("u6", 6)]
          : List (String × Nat)).map Prod.fst).Nodup
      ∧ (∀ p ∈ ([("u1", 1), ("u2", 2), ("u3", 3), ("u4", 4), ("u5", 5), ("u6", 6)]
          : List (String × Nat)), p.1 ≠ ""))
      ∧ ((∀ evs : List IconEv,
            (runEvents initIcon evs).pending.length ≤ MAX_CONCURRENT_DOWNLOADS)
          ∧ (iconDrainedState (fun _ => true)
              [("u1", 1), ("u2", 2), ("u3", 3), ("u4", 4), ("u5", 5), ("u6", 6)]).pending = []
          ∧ (iconDrainedState (fun _ => true)
              [("u1", 1), ("u2", 2), ("u3", 3), ("u4", 4), ("u5", 5), ("u6", 6)]).queue = []
          ∧ (iconDrainedState (fun _ => true)
              [("u1", 1), ("u2", 2), ("u3", 3), ("u4", 4), ("u5", 5), ("u6", 6)]).channel_icons.map
                Prod.fst
              = ([("u1", 1), ("u2", 2), ("u3", 3), ("u4", 4), ("u5", 5), ("u6", 6)]
                  : List (String × Nat)).map Prod.fst) :=
  ⟨⟨by decide, by decide⟩,
   c5_concurrency_cap [("u1", 1), ("u2", 2), ("u3", 3), ("u4", 4), ("u5", 5), ("u6", 6)]
     (fun _ => true) (by decide) (by decide)⟩

end IPTV
